import Mathlib

/-!
Verification of the chapterbridge embed/match worker's alignment core.

The development shallowly embeds the pure decision logic of the worker's
matchers in Lean:

* numeric values (ordinals, similarities, confidences) are modelled as
  rationals;
* JavaScript strings are modelled as lists of characters (so lowercasing
  and trimming are ordinary computable list operations);
* database reads are inputs to the embedded functions and database writes
  (upserts) are their outputs: a function returning `some row` means the
  corresponding run persists exactly that row, `none` means nothing is
  persisted for that unit;
* JavaScript's stable `Array.prototype.sort` is modelled by
  `List.insertionSort`, which realises the same stable ordering for the
  comparators used here.
-/

/-- Persisted mapping status (the `status` column). -/
inductive MStatus where
  | proposed
  | approved
deriving DecidableEq, Repr

/-- utils clamp: Math.max(min, Math.min(max, value)). -/
def clamp (value mn mx : ℚ) : ℚ := max mn (min mx value)

/-- utils rangeWidth: end - start + 1. -/
def rangeWidth (s e : ℚ) : ℚ := e - s + 1

/-- utils overlapLength: Math.max(0, Math.min(aEnd, bEnd) - Math.max(aStart, bStart) + 1). -/
def overlapLength (aStart aEnd bStart bEnd : ℚ) : ℚ :=
  max 0 (min aEnd bEnd - max aStart bStart + 1)

/-- utils overlapRatio: overlap / min(lenA, lenB), 0 when the overlap is 0. -/
def overlapRatio (aStart aEnd bStart bEnd : ℚ) : ℚ :=
  if overlapLength aStart aEnd bStart bEnd = 0 then 0
  else overlapLength aStart aEnd bStart bEnd / min (aEnd - aStart + 1) (bEnd - bStart + 1)

/-- utils determineStatus: always returns proposed, whatever the inputs
(the confidence / width / minimum-confidence arguments are ignored by the body). -/
def determineStatus (_confidence _rw _minConfidence _maxReasonableRangeWidth : ℚ) : MStatus :=
  .proposed

/-- utils adjustConfidenceForRange. -/
def adjustConfidenceForRange (confidence rw wideRangeThreshold penalty : ℚ) : ℚ :=
  if wideRangeThreshold < rw then clamp (confidence * penalty) 0 1 else confidence

/-- score.ts ScoringWeights. -/
structure ScoringWeights where
  summaryWeight : ℚ
  eventsWeight : ℚ
  summaryComboWeight : ℚ
  entitiesWeight : ℚ

/-- score.ts DEFAULT_WEIGHTS. -/
def DEFAULT_WEIGHTS : ScoringWeights :=
  { summaryWeight := 6/10, eventsWeight := 4/10, summaryComboWeight := 8/10, entitiesWeight := 2/10 }

/-- score.ts computeFinalScore. -/
def computeFinalScore (simSummary simEvents simEntities : ℚ) (weights : ScoringWeights) : ℚ :=
  weights.summaryComboWeight * (weights.summaryWeight * simSummary + weights.eventsWeight * simEvents)
    + weights.entitiesWeight * simEntities

/-- JavaScript toLowerCase on a string modelled as a character list. -/
def jsToLower (l : List Char) : List Char := l.map Char.toLower

/-- JavaScript trim on a string modelled as a character list. -/
def jsTrim (l : List Char) : List Char :=
  ((l.dropWhile Char.isWhitespace).reverse.dropWhile Char.isWhitespace).reverse

/-- The three recognised time contexts checked by normalizeTimeContext. -/
def knownTimeContexts : List (List Char) :=
  ["present".toList, "flashback".toList, "future".toList]

/-- score.ts normalizeTimeContext: null/undefined/empty is unknown, otherwise
lowercase and trim and keep only the three recognised values. -/
def normalizeTimeContext : Option (List Char) → List Char
  | none => "unknown".toList
  | some ctx =>
    if ctx = [] then "unknown".toList
    else
      let lower := jsTrim (jsToLower ctx)
      if lower ∈ knownTimeContexts then lower else "unknown".toList

/-- score.ts mismatchPairs. -/
def mismatchPairs : List (List Char × List Char) :=
  [("present".toList, "flashback".toList),
   ("present".toList, "future".toList),
   ("flashback".toList, "future".toList)]

/-- score.ts applyTimeContextAdjustment: +0.02 on matching known contexts,
-0.03 on a mismatched pair of known contexts, unchanged otherwise; no clamping. -/
def applyTimeContextAdjustment (score : ℚ) (fromTimeContext toTimeContext : Option (List Char)) : ℚ :=
  let fromNorm := normalizeTimeContext fromTimeContext
  let toNorm := normalizeTimeContext toTimeContext
  if fromNorm = toNorm ∧ fromNorm ≠ "unknown".toList then score + 2/100
  else if mismatchPairs.any (fun p => (fromNorm = p.1 ∧ toNorm = p.2) ∨ (fromNorm = p.2 ∧ toNorm = p.1)) then
    score - 3/100
  else score

/-- eventMatch.ts constants. -/
def MAX_RANGE_WIDTH : ℚ := 15

/-- eventMatch.ts MAX_FORWARD_JUMP. -/
def MAX_FORWARD_JUMP : ℚ := 30

/-- eventMatch.ts CLUSTER_THRESHOLD. -/
def CLUSTER_THRESHOLD : ℚ := 1/100

/-- eventMatch.ts JUMP_PENALTY_PER_10. -/
def JUMP_PENALTY_PER_10 : ℚ := 1/10

/-- eventMatch.ts MIN_CONFIDENCE. -/
def MIN_CONFIDENCE : ℚ := 4/10

/-- eventMatch.ts SegmentVote: one entry of the per-target-number vote map. -/
structure SegmentVote where
  segment_number : ℚ
  total_similarity : ℚ
  vote_count : ℕ
deriving DecidableEq, Repr

/-- avg_similarity = total / count. -/
def SegmentVote.avg (v : SegmentVote) : ℚ := v.total_similarity / v.vote_count

/-- One candidate row of searchEventCandidates: (segment_number, similarity). -/
abbrev EventCandidate : Type := ℚ × ℚ

/-- One votes.set step: update the entry in place if the number is present,
append a fresh entry otherwise (JS Map insertion-order semantics). -/
def addVote : List SegmentVote → EventCandidate → List SegmentVote
  | [], c => [⟨c.1, c.2, 1⟩]
  | v :: vs, c =>
    if v.segment_number = c.1 then
      ⟨v.segment_number, v.total_similarity + c.2, v.vote_count + 1⟩ :: vs
    else v :: addVote vs c

/-- The vote map built from the per-event candidate lists
(outer loop over events, inner loop over each event's candidates). -/
def votesOf (candidatesPerEvent : List (List EventCandidate)) : List SegmentVote :=
  candidatesPerEvent.foldl (fun acc cands => cands.foldl addVote acc) []

/-- segmentVotes.sort((a, b) => b.avg_similarity - a.avg_similarity): a stable
descending sort on average similarity. -/
def sortVotesDesc (votes : List SegmentVote) : List SegmentVote :=
  votes.insertionSort (fun a b => b.avg ≤ a.avg)

/-- segmentVotes[0] after the descending sort. -/
def topVoteOf (candidatesPerEvent : List (List EventCandidate)) : Option SegmentVote :=
  (sortVotesDesc (votesOf candidatesPerEvent)).head?

/-- The votes whose average similarity is within CLUSTER_THRESHOLD of the top average. -/
def inRangeOf (candidatesPerEvent : List (List EventCandidate)) : List SegmentVote :=
  match topVoteOf candidatesPerEvent with
  | none => []
  | some top => (votesOf candidatesPerEvent).filter (fun v => top.avg - CLUSTER_THRESHOLD ≤ v.avg)

/-- The one-pass cluster expansion around the best number: starting from
(best, best), each number within 2 of the current bounds extends them. -/
def clusterExpand (best : ℚ) (sorted : List ℚ) : ℚ × ℚ :=
  sorted.foldl
    (fun c num => if c.1 - 2 ≤ num ∧ num ≤ c.2 + 2 then (min c.1 num, max c.2 num) else c)
    (best, best)

/-- The cluster bounds (clusterStart, clusterEnd) computed by matchSegmentByEvents. -/
def clusterOf (candidatesPerEvent : List (List EventCandidate)) : ℚ × ℚ :=
  match topVoteOf candidatesPerEvent with
  | none => (0, 0)
  | some top =>
    clusterExpand top.segment_number
      (((inRangeOf candidatesPerEvent).map SegmentVote.segment_number).insertionSort (· ≤ ·))

/-- The range cap: when the cluster is wider than MAX_RANGE_WIDTH, keep only the
votes inside the width-15 window around the cluster midpoint; cappedStart is
midpoint - Math.floor(15 / 2) = midpoint - 7 and cappedEnd is
cappedStart + MAX_RANGE_WIDTH - 1. -/
def cappedInRange (inRange : List SegmentVote) (cluster : ℚ × ℚ) : List SegmentVote :=
  if MAX_RANGE_WIDTH < cluster.2 - cluster.1 + 1 then
    inRange.filter (fun v =>
      ((⌊(cluster.1 + cluster.2) / 2⌋ : ℤ) : ℚ) - 7 ≤ v.segment_number ∧
        v.segment_number ≤ ((⌊(cluster.1 + cluster.2) / 2⌋ : ℤ) : ℚ) - 7 + MAX_RANGE_WIDTH - 1)
  else inRange

/-- The forward-jump penalty: (excess / 10) * JUMP_PENALTY_PER_10 once the jump
exceeds MAX_FORWARD_JUMP, zero otherwise. -/
def forwardJumpPenalty (forwardJump : ℚ) : ℚ :=
  if MAX_FORWARD_JUMP < forwardJump then
    ((forwardJump - MAX_FORWARD_JUMP) / 10) * JUMP_PENALTY_PER_10
  else 0

/-- Math.min over a spread array (the empty case is never reached on the inputs
this development evaluates it at, see cappedInRange_ne_nil below). -/
def qListMin : List ℚ → ℚ
  | [] => 0
  | x :: xs => xs.foldl min x

/-- Math.max over a spread array. -/
def qListMax : List ℚ → ℚ
  | [] => 0
  | x :: xs => xs.foldl max x

/-- The values matchSegmentByEvents hands to upsertMapping (persisted columns)
together with the toSegmentStart/toSegmentEnd pair returned to the caller. -/
structure EventOutcome where
  persistedStart : ℚ
  persistedEnd : ℚ
  confidence : ℚ
  status : MStatus
  retStart : ℚ
  retEnd : ℚ
deriving DecidableEq, Repr

/-- eventMatch.ts matchSegmentByEvents, with the per-event candidate search
results supplied as input: vote accumulation, descending sort, threshold
filter, one-pass clustering, range cap, forward-jump penalty and rejection,
clamping, minimum-confidence rejection, and the final min/max range that is
persisted with status proposed. -/
def matchSegmentByEvents (candidatesPerEvent : List (List EventCandidate))
    (lastBestToNumber : Option ℚ) : Option EventOutcome :=
  if candidatesPerEvent = [] then none
  else
    match topVoteOf candidatesPerEvent with
    | none => none
    | some top =>
      let cluster := clusterOf candidatesPerEvent
      let inRange2 := cappedInRange (inRangeOf candidatesPerEvent) cluster
      let rejected : Bool :=
        match lastBestToNumber with
        | none => false
        | some c => decide (MAX_FORWARD_JUMP * 2 < cluster.1 - c)
      if rejected then none
      else
        let baseConfidence :=
          match lastBestToNumber with
          | none => top.avg
          | some c => top.avg - forwardJumpPenalty (cluster.1 - c)
        let confidence := max 0 (min 1 baseConfidence)
        if confidence < MIN_CONFIDENCE then none
        else
          let finalNumbers := inRange2.map SegmentVote.segment_number
          some { persistedStart := qListMin finalNumbers, persistedEnd := qListMax finalNumbers,
                 confidence := confidence, status := .proposed,
                 retStart := cluster.1, retEnd := cluster.2 }

/-- One iteration of the runMatchEvents loop: the persisted outcome (if any)
and the new checkpoint, which moves to the midpoint of the returned cluster
bounds only when a mapping was produced. -/
def matchEventsStep (candidatesPerEvent : List (List EventCandidate))
    (lastBestToNumber : Option ℚ) : Option EventOutcome × Option ℚ :=
  match matchSegmentByEvents candidatesPerEvent lastBestToNumber with
  | some o => (some o, some ((⌊(o.retStart + o.retEnd) / 2⌋ : ℤ) : ℚ))
  | none => (none, lastBestToNumber)

/-- Invariant of the one-pass cluster expansion: the bounds are list members
surrounding the best number, and the processed numbers are 2-dense inside the
bounds (every width-2 subinterval of the bounds contains a member). -/
def ClusterInv (nums : List ℚ) (best : ℚ) (c : ℚ × ℚ) : Prop :=
  c.1 ∈ nums ∧ c.2 ∈ nums ∧ c.1 ≤ best ∧ best ≤ c.2 ∧
    ∀ t : ℚ, c.1 ≤ t → t + 2 ≤ c.2 → ∃ n ∈ nums, t ≤ n ∧ n ≤ t + 2

/-- matchingAlign Candidate: one target segment with its three channel
similarities and time context (entity lists are not needed by the persisted
fields and are omitted). -/
structure AlignCandidate where
  number : ℚ
  sim_summary : ℚ
  sim_events : ℚ
  sim_entities : ℚ
  time_context : Option (List Char)
deriving DecidableEq, Repr

/-- The final_score assigned to a candidate in alignSegment: weighted combination,
time-context adjustment, and the 0.01 backtrack penalty for candidates behind
the window floor. -/
def alignFinalScore (fromTimeContext : Option (List Char)) (lastBestToNumber : Option ℚ)
    (backtrack : ℚ) (c : AlignCandidate) : ℚ :=
  let s1 := computeFinalScore c.sim_summary c.sim_events c.sim_entities DEFAULT_WEIGHTS
  let s2 := applyTimeContextAdjustment s1 fromTimeContext c.time_context
  match lastBestToNumber with
  | some lb => if c.number < lb - backtrack then s2 - 1/100 else s2
  | none => s2

/-- Candidates paired with their final_score. -/
def scoredOf (fromTimeContext : Option (List Char)) (lastBestToNumber : Option ℚ)
    (backtrack : ℚ) (candidates : List AlignCandidate) : List (AlignCandidate × ℚ) :=
  candidates.map (fun c => (c, alignFinalScore fromTimeContext lastBestToNumber backtrack c))

/-- The columns alignSegment hands to upsertMapping. -/
structure AlignOutcome where
  toSegmentStart : ℚ
  toSegmentEnd : ℚ
  confidence : ℚ
  status : MStatus
deriving DecidableEq, Repr

/-- matchingAlign alignSegment with the fetched candidates supplied as input:
score every candidate, sort descending by final_score (stable), keep the
candidates within 0.02 of the top score, and persist the min/max of their
numbers with the top score as confidence (note: the top score is not clamped)
and status proposed. -/
def alignSegment (candidates : List AlignCandidate) (fromTimeContext : Option (List Char))
    (lastBestToNumber : Option ℚ) (backtrack : ℚ) : Option AlignOutcome :=
  if candidates = [] then none
  else
    match (scoredOf fromTimeContext lastBestToNumber backtrack candidates).insertionSort
        (fun a b => b.2 ≤ a.2) with
    | [] => none
    | top :: _ =>
      some { toSegmentStart :=
               qListMin (((scoredOf fromTimeContext lastBestToNumber backtrack candidates).filter
                 (fun c => top.2 - 2/100 ≤ c.2)).map (fun c => c.1.number)),
             toSegmentEnd :=
               qListMax (((scoredOf fromTimeContext lastBestToNumber backtrack candidates).filter
                 (fun c => top.2 - 2/100 ≤ c.2)).map (fun c => c.1.number)),
             confidence := top.2,
             status := .proposed }

/-- The literal present time context used in concrete runs. -/
def presentCtx : List Char := "present".toList

/-- A candidate with perfect similarities on all three channels. -/
def alignCandExceed : AlignCandidate := ⟨7, 1, 1, 1, some presentCtx⟩

/-- The tolerance-selected vote numbers actually used for the persisted range,
after the width cap. -/
def finalNumbersOf (candidatesPerEvent : List (List EventCandidate)) : List ℚ :=
  (cappedInRange (inRangeOf candidatesPerEvent) (clusterOf candidatesPerEvent)).map
    SegmentVote.segment_number

/-- Grouping of ascending numbers into maximal clusters merging gaps of at
most 2; written from the claim's wording, for comparison with the code. -/
def gapClustersAux (s e : ℚ) : List ℚ → List (ℚ × ℚ)
  | [] => [(s, e)]
  | x :: xs => if x - e ≤ 2 then gapClustersAux s x xs else (s, e) :: gapClustersAux x x xs

/-- Maximal gap-2 clusters of an ascending number list. -/
def gapClusters : List ℚ → List (ℚ × ℚ)
  | [] => []
  | x :: xs => gapClustersAux x x xs

/-- The range claim C3 describes: the maximal contiguous (gap at most 2)
cluster of the tolerance-selected numbers that contains the best number,
truncated to width 15 around its midpoint when too wide. -/
def claimedVotingRange (candidatesPerEvent : List (List EventCandidate)) : ℚ × ℚ :=
  match topVoteOf candidatesPerEvent with
  | none => (0, 0)
  | some top =>
    let cl := ((gapClusters
        (((inRangeOf candidatesPerEvent).map SegmentVote.segment_number).insertionSort (· ≤ ·))).find?
        (fun c => decide (c.1 ≤ top.segment_number ∧ top.segment_number ≤ c.2))).getD
      (top.segment_number, top.segment_number)
    if MAX_RANGE_WIDTH < cl.2 - cl.1 + 1 then
      (((⌊(cl.1 + cl.2) / 2⌋ : ℤ) : ℚ) - 7, ((⌊(cl.1 + cl.2) / 2⌋ : ℤ) : ℚ) - 7 + MAX_RANGE_WIDTH - 1)
    else cl

/-- A vote distribution with tolerance-selected numbers 5, 9 (best) and 20. -/
def cpeWide : List (List EventCandidate) := [[(5, 9/10), (9, 905/1000), (20, 9/10)]]

/-- A mapping row read back for cross-media derivation: source ordinal plus the
pivot-space target range and confidence (deriveAnimeManhwa interfaces). -/
structure PivotMapping where
  from_segment_number : ℚ
  to_segment_start : ℚ
  to_segment_end : ℚ
  confidence : ℚ
deriving DecidableEq, Repr

/-- One entry of the overlapping array built by deriveAnimeManhwaMapping. -/
structure OverlapCand where
  mapping : PivotMapping
  overlap : ℚ
  ratio : ℚ
  derivedConf : ℚ
deriving DecidableEq, Repr

/-- One loop iteration of deriveAnimeManhwaMapping: pairs with positive pivot
overlap are pushed with ratio and clamped derived confidence, the rest are
discarded. -/
def pairCandidate (a m : PivotMapping) : Option OverlapCand :=
  if 0 < overlapLength a.to_segment_start a.to_segment_end m.to_segment_start m.to_segment_end then
    some { mapping := m,
           overlap := overlapLength a.to_segment_start a.to_segment_end
             m.to_segment_start m.to_segment_end,
           ratio := overlapRatio a.to_segment_start a.to_segment_end
             m.to_segment_start m.to_segment_end,
           derivedConf := clamp (a.confidence * m.confidence *
             overlapRatio a.to_segment_start a.to_segment_end
               m.to_segment_start m.to_segment_end) 0 1 }
  else none

/-- The overlapping array of deriveAnimeManhwaMapping. -/
def overlappingOf (a : PivotMapping) (ms : List PivotMapping) : List OverlapCand :=
  ms.filterMap (pairCandidate a)

/-- The contiguous-range loop of deriveAnimeManhwaMapping: starting from the
lowest kept ordinal, extend while the gap is at most 2, break at the first
larger gap. -/
def spanLoop (e : ℚ) : List ℚ → ℚ
  | [] => e
  | x :: xs => if x - e ≤ 2 then spanLoop x xs else e

/-- The fields of the DerivedMapping record that reach upsertDerivedMapping. -/
structure DerivedMapping where
  manhwa_start : ℚ
  manhwa_end : ℚ
  derived_confidence : ℚ
  best_overlap_len : ℚ
  best_overlap_ratio : ℚ
  conf_anime : ℚ
  conf_manhwa : ℚ
deriving DecidableEq, Repr

/-- deriveAnimeManhwaMapping: overlap pairs, stable descending sort on derived
confidence, the 0.05 epsilon band around the best, and the gap-2 contiguous
span of the kept target ordinals from the lowest upward. -/
def deriveAnimeManhwaMapping (a : PivotMapping) (ms : List PivotMapping) :
    Option DerivedMapping :=
  match (overlappingOf a ms).insertionSort (fun x y => y.derivedConf ≤ x.derivedConf) with
  | [] => none
  | best :: rest =>
    match (((best :: rest).filter (fun o => best.derivedConf - 5/100 ≤ o.derivedConf)).map
        (fun t => t.mapping.from_segment_number)).insertionSort (· ≤ ·) with
    | [] => none
    | n0 :: nrest =>
      some { manhwa_start := n0, manhwa_end := spanLoop n0 nrest,
             derived_confidence := best.derivedConf, best_overlap_len := best.overlap,
             best_overlap_ratio := best.ratio, conf_anime := a.confidence,
             conf_manhwa := best.mapping.confidence }

/-- The inline status choice of runDeriveAnimeManhwa: proposed below the
configured minimum confidence, approved at or above it. -/
def deriveRunStatus (derivedConfidence minConfidence : ℚ) : MStatus :=
  if derivedConfidence < minConfidence then .proposed else .approved

/-- One unit of the runDeriveAnimeManhwa loop: the derived mapping together
with the status it is persisted with. -/
def runDeriveStep (a : PivotMapping) (ms : List PivotMapping) (minConfidence : ℚ) :
    Option (DerivedMapping × MStatus) :=
  (deriveAnimeManhwaMapping a ms).map
    (fun d => (d, deriveRunStatus d.derived_confidence minConfidence))

/-- A manhwa-to-pivot mapping row of the legacy runDerive. -/
structure ManhwaMapping where
  manhwa_segment_number : ℚ
  pivot_start : ℚ
  pivot_end : ℚ
  confidence : ℚ
deriving DecidableEq, Repr

/-- One entry of the overlappingManhwa array of the legacy deriveMapping. -/
structure LegacyOverlap where
  mapping : ManhwaMapping
  overlapLen : ℚ
  ratio : ℚ
  derivedConf : ℚ
deriving DecidableEq, Repr

/-- One loop iteration of the legacy deriveMapping; the overlap length, ratio
and clamp are inlined in the source with the same formulas as the utils
helpers (Math.min(1, Math.max(0, conf))). -/
def legacyPairCandidate (a : PivotMapping) (m : ManhwaMapping) : Option LegacyOverlap :=
  if 0 < overlapLength a.to_segment_start a.to_segment_end m.pivot_start m.pivot_end then
    some { mapping := m,
           overlapLen := overlapLength a.to_segment_start a.to_segment_end
             m.pivot_start m.pivot_end,
           ratio := overlapLength a.to_segment_start a.to_segment_end m.pivot_start m.pivot_end /
             min (a.to_segment_end - a.to_segment_start + 1) (m.pivot_end - m.pivot_start + 1),
           derivedConf := min 1 (max 0 (a.confidence * m.confidence *
             (overlapLength a.to_segment_start a.to_segment_end m.pivot_start m.pivot_end /
               min (a.to_segment_end - a.to_segment_start + 1)
                 (m.pivot_end - m.pivot_start + 1)))) }
  else none

/-- The columns the legacy deriveMapping hands to upsertDerivedMapping. -/
structure LegacyDerived where
  toSegmentStart : ℚ
  toSegmentEnd : ℚ
  confidence : ℚ
  status : MStatus
deriving DecidableEq, Repr

/-- runMigration deriveMapping: same pairing and 0.05 epsilon band, but the
persisted range is the plain Math.min/Math.max envelope of the kept target
ordinals, with no gap-tolerance merging, and status is always proposed. -/
def deriveMapping (a : PivotMapping) (ms : List ManhwaMapping) : Option LegacyDerived :=
  match (ms.filterMap (legacyPairCandidate a)).insertionSort
      (fun x y => y.derivedConf ≤ x.derivedConf) with
  | [] => none
  | best :: rest =>
    some { toSegmentStart := qListMin (((best :: rest).filter
             (fun o => best.derivedConf - 5/100 ≤ o.derivedConf)).map
             (fun t => t.mapping.manhwa_segment_number)),
           toSegmentEnd := qListMax (((best :: rest).filter
             (fun o => best.derivedConf - 5/100 ≤ o.derivedConf)).map
             (fun t => t.mapping.manhwa_segment_number)),
           confidence := best.derivedConf,
           status := .proposed }

/-- Ending ordinal of the maximal gap-2 chain prefix, written from the claim's
wording (merge only numbers separated by at most 2, stop at the first larger
gap) for comparison with the code's span loop. -/
def chainPrefixEnd (s : ℚ) : List ℚ → ℚ
  | [] => s
  | x :: xs => if x ≤ s + 2 then chainPrefixEnd x xs else s

/-- The kept target-side ordinals, sorted ascending, as computed inside
deriveAnimeManhwaMapping. -/
def keptNumbersOf (a : PivotMapping) (ms : List PivotMapping) : List ℚ :=
  match (overlappingOf a ms).insertionSort (fun x y => y.derivedConf ≤ x.derivedConf) with
  | [] => []
  | best :: rest =>
    (((best :: rest).filter (fun o => best.derivedConf - 5/100 ≤ o.derivedConf)).map
      (fun t => t.mapping.from_segment_number)).insertionSort (· ≤ ·)

/-- The monotonic guard of runMatchIncremental (step 8): when the backward jump
lastToEnd - toStart exceeds 3 and the confidence is below the 0.80 exception,
force status proposed and multiply the confidence by 0.8 (clamped); otherwise
keep the confidence and take determineStatus's result (whose fourth argument
defaults to 20 at this call site). -/
def monotonicGuard (lastToEnd toStart toEnd confidence minConfidence : ℚ) : MStatus × ℚ :=
  if 3 < lastToEnd - toStart ∧ confidence < 8/10 then
    (.proposed, clamp (confidence * (8/10)) 0 1)
  else
    (determineStatus confidence (rangeWidth toStart toEnd) minConfidence 20, confidence)

/-- One observable step of a matcher run: upserting a unit's mapping or
advancing the in-memory checkpoint for that unit. -/
inductive PAction where
  | persist (unit : ℚ)
  | advance (unit : ℚ)
deriving DecidableEq, Repr

/-- okTrace t ps is true when every checkpoint advance in t is for a unit whose
mapping was persisted earlier (ps collects the units persisted so far). -/
def okTrace : List PAction → List ℚ → Bool
  | [], _ => true
  | .persist n :: t, ps => okTrace t (n :: ps)
  | .advance n :: t, ps => if n ∈ ps then okTrace t ps else false

/-- The runMatchEvents loop as a trace: the search oracle maps a source segment
number and the current window to its per-event candidate lists; a matched unit
is upserted inside matchSegmentByEvents before the loop advances
lastBestToNumber to the returned cluster midpoint. -/
def runMatchEvents (oracle : ℚ → Option (ℚ × ℚ) → List (List EventCandidate))
    (windowSize backtrack : ℚ) : List ℚ → Option ℚ → List PAction
  | [], _ => []
  | seg :: segs, lastBest =>
    match matchSegmentByEvents
        (oracle seg (lastBest.map (fun c => (c - backtrack, c + windowSize)))) lastBest with
    | some o => .persist seg :: .advance seg ::
        runMatchEvents oracle windowSize backtrack segs
          (some ((⌊(o.retStart + o.retEnd) / 2⌋ : ℤ) : ℚ))
    | none => runMatchEvents oracle windowSize backtrack segs lastBest

/-- eventMatchGreedy.ts EventMatch (the fields the range decision uses). -/
structure EventMatch where
  to_chapter : ℚ
  similarity : ℚ
deriving DecidableEq, Repr

/-- Vote weight of a chapter: the number of ems hitting it. -/
def chapterWeight (ems : List EventMatch) (c : ℚ) : ℕ :=
  (ems.filter (fun m => m.to_chapter = c)).length

/-- The cluster-building loop of findBestCluster over the ascending unique
chapters (CLUSTER_GAP = 2), carrying (start, end, weight). -/
def buildClusters (ems : List EventMatch) : ℚ × ℚ × ℕ → List ℚ → List (ℚ × ℚ × ℕ)
  | acc, [] => [acc]
  | (s, e, wt), c :: cs =>
    if c - e ≤ 2 then buildClusters ems (s, c, wt + chapterWeight ems c) cs
    else (s, e, wt) :: buildClusters ems (c, c, chapterWeight ems c) cs

/-- eventMatchGreedy.ts findBestCluster: the highest-weight cluster (stable
descending sort on weight), singletons short-circuited. -/
def findBestCluster (chapters : List ℚ) (ems : List EventMatch) : ℚ × ℚ :=
  match chapters with
  | [] => (0, 0)
  | [c] => (c, c)
  | c0 :: cs =>
    match (buildClusters ems (c0, c0, chapterWeight ems c0) cs).insertionSort
        (fun x y => y.2.2 ≤ x.2.2) with
    | [] => (0, 0)
    | cl :: _ => (cl.1, cl.2.1)

/-- The fields of the per-episode greedy result. -/
structure GreedyResult where
  episode : ℚ
  chapter_start : ℚ
  chapter_end : ℚ
  confidence : ℚ
  event_matches : ℕ
deriving DecidableEq, Repr

/-- eventMatchGreedy.ts determineChapterRange: unique chapters ascending, best
cluster, width cap to 10 around the midpoint floored at minChapter, and the
average similarity of the ems inside the final range. -/
def determineChapterRange (episode : ℚ) (ems : List EventMatch) (minChapter : ℚ) :
    Option GreedyResult :=
  match ((ems.map (fun m => m.to_chapter)).dedup).insertionSort (· ≤ ·) with
  | [] => none
  | u0 :: urest =>
    let bc := findBestCluster (u0 :: urest) ems
    let bc2 := if 10 < bc.2 - bc.1 + 1 then
        (max minChapter (((⌊(bc.1 + bc.2) / 2⌋ : ℤ) : ℚ) - 5),
         max minChapter (((⌊(bc.1 + bc.2) / 2⌋ : ℤ) : ℚ) - 5) + 10 - 1)
      else bc
    some { episode := episode, chapter_start := bc2.1, chapter_end := bc2.2,
           confidence := ((ems.filter
               (fun m => bc2.1 ≤ m.to_chapter ∧ m.to_chapter ≤ bc2.2)).map
               (fun m => m.similarity)).sum /
             (ems.filter (fun m => bc2.1 ≤ m.to_chapter ∧ m.to_chapter ≤ bc2.2)).length,
           event_matches := (ems.filter
             (fun m => bc2.1 ≤ m.to_chapter ∧ m.to_chapter ≤ bc2.2)).length }

/-- The Step 2 scan of runMatchEventsGreedy: the oracle maps an episode and the
search window [lastMatchedChapter, lastMatchedChapter + 30] to its event
ems; accepted results advance lastMatchedChapter immediately (emitting an
advance event) and are only collected in memory. Returns the collected results
and the scan trace. -/
def runMatchEventsGreedyLoop (oracle : ℚ → ℚ → ℚ → List EventMatch) :
    List ℚ → ℚ → List GreedyResult → List GreedyResult × List PAction
  | [], _, results => (results, [])
  | ep :: eps, lastMatchedChapter, results =>
    if (oracle ep lastMatchedChapter (lastMatchedChapter + 30)) = [] then
      runMatchEventsGreedyLoop oracle eps lastMatchedChapter results
    else if (oracle ep lastMatchedChapter (lastMatchedChapter + 30)).length < 1 then
      runMatchEventsGreedyLoop oracle eps lastMatchedChapter results
    else
      match determineChapterRange ep (oracle ep lastMatchedChapter (lastMatchedChapter + 30))
          lastMatchedChapter with
      | none => runMatchEventsGreedyLoop oracle eps lastMatchedChapter results
      | some r =>
        match results.getLast? with
        | some prev =>
          if (ep - prev.episode) * 8 < r.chapter_start - prev.chapter_end then
            runMatchEventsGreedyLoop oracle eps lastMatchedChapter results
          else
            ((runMatchEventsGreedyLoop oracle eps r.chapter_end (results ++ [r])).1,
             .advance ep :: (runMatchEventsGreedyLoop oracle eps r.chapter_end (results ++ [r])).2)
        | none =>
          ((runMatchEventsGreedyLoop oracle eps r.chapter_end (results ++ [r])).1,
           .advance ep :: (runMatchEventsGreedyLoop oracle eps r.chapter_end (results ++ [r])).2)

/-- runMatchEventsGreedy as a trace: the Step 2 scan (which advances the
checkpoint in memory) followed by Step 3, which only then saves every collected
mapping to the database. -/
def runMatchEventsGreedy (oracle : ℚ → ℚ → ℚ → List EventMatch) (episodes : List ℚ) :
    List PAction :=
  (runMatchEventsGreedyLoop oracle episodes 0 []).2 ++
    (runMatchEventsGreedyLoop oracle episodes 0 []).1.map (fun r => .persist r.episode)

lemma normalizeTimeContext_some_of_mem (ctx : List Char) (hempty : ¬ctx = [])
    (hmem : jsTrim (jsToLower ctx) ∈ knownTimeContexts) :
    normalizeTimeContext (some ctx) = jsTrim (jsToLower ctx) := by
  simp [normalizeTimeContext, hempty, hmem]

lemma normalizeTimeContext_cases (c : Option (List Char)) :
    normalizeTimeContext c = "present".toList ∨ normalizeTimeContext c = "flashback".toList ∨
      normalizeTimeContext c = "future".toList ∨ normalizeTimeContext c = "unknown".toList := by
  match c with
  | none => right; right; right; rfl
  | some ctx =>
    by_cases hempty : ctx = []
    · right; right; right; simp [normalizeTimeContext, hempty]
    · by_cases hmem : jsTrim (jsToLower ctx) ∈ knownTimeContexts
      · have hval := hmem
        simp only [knownTimeContexts, List.mem_cons, List.not_mem_nil, or_false] at hval
        rcases hval with h | h | h
        · left; rw [normalizeTimeContext_some_of_mem ctx hempty hmem, h]
        · right; left; rw [normalizeTimeContext_some_of_mem ctx hempty hmem, h]
        · right; right; left; rw [normalizeTimeContext_some_of_mem ctx hempty hmem, h]
      · right; right; right; simp [normalizeTimeContext, hempty, hmem]

/-- C10: applyTimeContextAdjustment adds 0.02 exactly when both contexts
normalize to the same recognised value, subtracts 0.03 exactly when they
normalize to two distinct recognised values, and otherwise (in particular when
either side normalizes to unknown) returns the score unchanged; the result is
not clamped and can exceed 1. -/
theorem claim_C10 (s : ℚ) (f t : Option (List Char)) :
    (applyTimeContextAdjustment s f t =
      if normalizeTimeContext f = normalizeTimeContext t ∧ normalizeTimeContext f ∈ knownTimeContexts then
        s + 2/100
      else if normalizeTimeContext f ≠ normalizeTimeContext t ∧ normalizeTimeContext f ∈ knownTimeContexts
          ∧ normalizeTimeContext t ∈ knownTimeContexts then
        s - 3/100
      else s)
    ∧ (1 : ℚ) < applyTimeContextAdjustment 1 (some "present".toList) (some "present".toList) := by
  constructor
  · rcases normalizeTimeContext_cases f with hf | hf | hf | hf <;>
      rcases normalizeTimeContext_cases t with ht | ht | ht | ht <;>
      simp [applyTimeContextAdjustment, mismatchPairs, knownTimeContexts, hf, ht]
  · have hn : normalizeTimeContext (some "present".toList) = "present".toList := by decide
    have hne : "present".toList ≠ "unknown".toList := by decide
    simp only [applyTimeContextAdjustment, hn]
    simp [hne]

lemma foldl_min_mem (xs : List ℚ) : ∀ x : ℚ, xs.foldl min x = x ∨ xs.foldl min x ∈ xs := by
  induction xs with
  | nil => intro x; left; rfl
  | cons a as ih =>
    intro x
    rcases ih (min x a) with h | h
    · rcases min_choice x a with h2 | h2
      · left; simpa [h2] using h
      · right; simp only [List.foldl_cons] at *; rw [h, h2]; exact List.mem_cons_self a as
    · right; exact List.mem_cons_of_mem a h

lemma foldl_min_le_init (xs : List ℚ) : ∀ x : ℚ, xs.foldl min x ≤ x := by
  induction xs with
  | nil => intro x; exact le_refl x
  | cons a as ih => intro x; exact le_trans (ih (min x a)) (min_le_left _ _)

lemma foldl_min_le_mem (xs : List ℚ) : ∀ x y : ℚ, y ∈ xs → xs.foldl min x ≤ y := by
  induction xs with
  | nil => intro x y hy; cases hy
  | cons a as ih =>
    intro x y hy
    simp only [List.foldl_cons]
    rcases List.mem_cons.mp hy with h | h
    · subst h; exact le_trans (foldl_min_le_init as (min x y)) (min_le_right _ _)
    · exact ih (min x a) y h

lemma foldl_max_mem (xs : List ℚ) : ∀ x : ℚ, xs.foldl max x = x ∨ xs.foldl max x ∈ xs := by
  induction xs with
  | nil => intro x; left; rfl
  | cons a as ih =>
    intro x
    rcases ih (max x a) with h | h
    · rcases max_choice x a with h2 | h2
      · left; simpa [h2] using h
      · right; simp only [List.foldl_cons] at *; rw [h, h2]; exact List.mem_cons_self a as
    · right; exact List.mem_cons_of_mem a h

lemma le_foldl_max_init (xs : List ℚ) : ∀ x : ℚ, x ≤ xs.foldl max x := by
  induction xs with
  | nil => intro x; exact le_refl x
  | cons a as ih => intro x; exact le_trans (le_max_left _ _) (ih (max x a))

lemma le_foldl_max_mem (xs : List ℚ) : ∀ x y : ℚ, y ∈ xs → y ≤ xs.foldl max x := by
  induction xs with
  | nil => intro x y hy; cases hy
  | cons a as ih =>
    intro x y hy
    simp only [List.foldl_cons]
    rcases List.mem_cons.mp hy with h | h
    · subst h; exact le_trans (le_max_right _ _) (le_foldl_max_init as (max x y))
    · exact ih (max x a) y h

lemma qListMin_le (l : List ℚ) (y : ℚ) (hy : y ∈ l) : qListMin l ≤ y := by
  cases l with
  | nil => cases hy
  | cons x xs =>
    rcases List.mem_cons.mp hy with h | h
    · subst h; exact foldl_min_le_init xs y
    · exact foldl_min_le_mem xs x y h

lemma qListMin_mem (l : List ℚ) (hl : l ≠ []) : qListMin l ∈ l := by
  cases l with
  | nil => exact absurd rfl hl
  | cons x xs =>
    rcases foldl_min_mem xs x with h | h
    · simp [qListMin, h]
    · simp [qListMin]; right; exact h

lemma le_qListMax (l : List ℚ) (y : ℚ) (hy : y ∈ l) : y ≤ qListMax l := by
  cases l with
  | nil => cases hy
  | cons x xs =>
    rcases List.mem_cons.mp hy with h | h
    · subst h; exact le_foldl_max_init xs y
    · exact le_foldl_max_mem xs x y h

lemma qListMax_mem (l : List ℚ) (hl : l ≠ []) : qListMax l ∈ l := by
  cases l with
  | nil => exact absurd rfl hl
  | cons x xs =>
    rcases foldl_max_mem xs x with h | h
    · simp [qListMax, h]
    · simp [qListMax]; right; exact h

lemma qListMin_le_qListMax (l : List ℚ) (hl : l ≠ []) : qListMin l ≤ qListMax l :=
  le_trans (qListMin_le l (qListMax l) (qListMax_mem l hl)) (le_refl _)

lemma clusterStep_inv (nums : List ℚ) (best : ℚ) (c : ℚ × ℚ) (num : ℚ)
    (hnum : num ∈ nums) (hc : ClusterInv nums best c) :
    ClusterInv nums best
      (if c.1 - 2 ≤ num ∧ num ≤ c.2 + 2 then (min c.1 num, max c.2 num) else c) := by
  by_cases hcond : c.1 - 2 ≤ num ∧ num ≤ c.2 + 2
  · rw [if_pos hcond]
    obtain ⟨h1, h2, h3, h4, hd⟩ := hc
    refine ⟨?_, ?_, le_trans (min_le_left _ _) h3, le_trans h4 (le_max_left _ _), ?_⟩
    · rcases min_choice c.1 num with h | h <;> rw [h] <;> assumption
    · rcases max_choice c.2 num with h | h <;> rw [h] <;> assumption
    · intro t ht1 ht2
      simp only at ht1 ht2
      by_cases ha : c.1 ≤ t
      · by_cases hb : t + 2 ≤ c.2
        · exact hd t ha hb
        · push_neg at hb
          have hnum_ge : t + 2 ≤ num := by
            rcases max_choice c.2 num with h | h
            · rw [h] at ht2; linarith
            · rw [h] at ht2; exact ht2
          exact ⟨c.2, h2, by linarith [hcond.2], by linarith⟩
      · push_neg at ha
        have hnum_le : num ≤ t := by
          rcases min_choice c.1 num with h | h
          · rw [h] at ht1; linarith
          · rw [h] at ht1; exact ht1
        exact ⟨c.1, h1, le_of_lt ha, by linarith [hcond.1]⟩
  · rw [if_neg hcond]; exact hc

lemma clusterFold_inv (nums : List ℚ) (best : ℚ) :
    ∀ (l : List ℚ), (∀ x ∈ l, x ∈ nums) → ∀ c, ClusterInv nums best c →
      ClusterInv nums best
        (l.foldl (fun c num =>
          if c.1 - 2 ≤ num ∧ num ≤ c.2 + 2 then (min c.1 num, max c.2 num) else c) c) := by
  intro l
  induction l with
  | nil => intro _ c hc; exact hc
  | cons a as ih =>
    intro hl c hc
    simp only [List.foldl_cons]
    exact ih (fun x hx => hl x (List.mem_cons_of_mem a hx)) _
      (clusterStep_inv nums best c a (hl a (List.mem_cons_self a as)) hc)

lemma clusterExpand_inv (nums : List ℚ) (best : ℚ) (l : List ℚ)
    (hl : ∀ x ∈ l, x ∈ nums) (hbest : best ∈ nums) :
    ClusterInv nums best (clusterExpand best l) := by
  apply clusterFold_inv nums best l hl
  exact ⟨hbest, hbest, le_refl _, le_refl _, fun t ht1 ht2 => absurd ht2 (by simp only; linarith)⟩

lemma exists_mem_capped (nums : List ℚ) (best : ℚ) (c : ℚ × ℚ)
    (hinv : ClusterInv nums best c) (hwide : MAX_RANGE_WIDTH < c.2 - c.1 + 1) :
    ∃ n ∈ nums, ((⌊(c.1 + c.2) / 2⌋ : ℤ) : ℚ) - 7 ≤ n ∧
      n ≤ ((⌊(c.1 + c.2) / 2⌋ : ℤ) : ℚ) - 7 + MAX_RANGE_WIDTH - 1 := by
  obtain ⟨h1, h2, h3, h4, hd⟩ := hinv
  have hfl : ((⌊(c.1 + c.2) / 2⌋ : ℤ) : ℚ) ≤ (c.1 + c.2) / 2 := Int.floor_le _
  have hfg : (c.1 + c.2) / 2 < ((⌊(c.1 + c.2) / 2⌋ : ℤ) : ℚ) + 1 := Int.lt_floor_add_one _
  have hw : (14 : ℚ) < c.2 - c.1 := by
    simp only [MAX_RANGE_WIDTH] at hwide; linarith
  by_cases hcs : ((⌊(c.1 + c.2) / 2⌋ : ℤ) : ℚ) - 7 ≤ c.1
  · refine ⟨c.1, h1, hcs, ?_⟩
    simp only [MAX_RANGE_WIDTH]
    linarith
  · push_neg at hcs
    obtain ⟨n, hn, hn1, hn2⟩ := hd (((⌊(c.1 + c.2) / 2⌋ : ℤ) : ℚ) - 7) (le_of_lt hcs) (by linarith)
    refine ⟨n, hn, hn1, ?_⟩
    simp only [MAX_RANGE_WIDTH]
    linarith

lemma topVote_mem_votes (cpe : List (List EventCandidate)) (top : SegmentVote)
    (h : topVoteOf cpe = some top) : top ∈ votesOf cpe := by
  unfold topVoteOf at h
  have hmem : top ∈ sortVotesDesc (votesOf cpe) := by
    cases hs : sortVotesDesc (votesOf cpe) with
    | nil => rw [hs] at h; cases h
    | cons b bs =>
      rw [hs] at h
      simp only [List.head?] at h
      injection h with h2
      rw [← h2]
      exact List.mem_cons_self b bs
  exact (List.perm_insertionSort _ _).mem_iff.mp hmem

lemma top_mem_inRange (cpe : List (List EventCandidate)) (top : SegmentVote)
    (h : topVoteOf cpe = some top) : top ∈ inRangeOf cpe := by
  unfold inRangeOf
  rw [h]
  refine List.mem_filter.mpr ⟨topVote_mem_votes cpe top h, ?_⟩
  simp only [decide_eq_true_eq, CLUSTER_THRESHOLD]
  linarith

lemma cappedInRange_ne_nil (cpe : List (List EventCandidate)) (top : SegmentVote)
    (h : topVoteOf cpe = some top) :
    cappedInRange (inRangeOf cpe) (clusterOf cpe) ≠ [] := by
  have htopmem := top_mem_inRange cpe top h
  have hbest : top.segment_number ∈ (inRangeOf cpe).map SegmentVote.segment_number :=
    List.mem_map_of_mem _ htopmem
  have hsorted_sub : ∀ x ∈ ((inRangeOf cpe).map SegmentVote.segment_number).insertionSort (· ≤ ·),
      x ∈ (inRangeOf cpe).map SegmentVote.segment_number :=
    fun x hx => (List.perm_insertionSort _ _).mem_iff.mp hx
  have hinv : ClusterInv ((inRangeOf cpe).map SegmentVote.segment_number) top.segment_number
      (clusterOf cpe) := by
    unfold clusterOf
    rw [h]
    exact clusterExpand_inv _ _ _ hsorted_sub hbest
  unfold cappedInRange
  by_cases hwide : MAX_RANGE_WIDTH < (clusterOf cpe).2 - (clusterOf cpe).1 + 1
  · rw [if_pos hwide]
    obtain ⟨n, hn, hn1, hn2⟩ := exists_mem_capped _ _ _ hinv hwide
    obtain ⟨v, hv, hveq⟩ := List.mem_map.mp hn
    apply List.ne_nil_of_mem (a := v)
    refine List.mem_filter.mpr ⟨hv, ?_⟩
    simp only [decide_eq_true_eq]
    rw [hveq]
    exact ⟨hn1, hn2⟩
  · rw [if_neg hwide]
    exact List.ne_nil_of_mem htopmem

lemma matchEvents_some_bounds (cpe : List (List EventCandidate)) (lastBest : Option ℚ)
    (o : EventOutcome) (h : matchSegmentByEvents cpe lastBest = some o) :
    o.persistedStart ≤ o.persistedEnd ∧ 0 ≤ o.confidence ∧ o.confidence ≤ 1 ∧
      o.status = .proposed := by
  unfold matchSegmentByEvents at h
  by_cases hnil : cpe = []
  · rw [if_pos hnil] at h; cases h
  rw [if_neg hnil] at h
  cases htop : topVoteOf cpe with
  | none => rw [htop] at h; cases h
  | some top =>
    rw [htop] at h
    dsimp only at h
    split at h
    · cases h
    · split at h
      · cases h
      · injection h with h2
        subst h2
        have hne : (cappedInRange (inRangeOf cpe) (clusterOf cpe)).map SegmentVote.segment_number ≠ [] := by
          simp only [ne_eq, List.map_eq_nil_iff]
          exact cappedInRange_ne_nil cpe top htop
        refine ⟨qListMin_le_qListMax _ hne, le_max_left _ _, ?_, rfl⟩
        exact max_le (by norm_num) (min_le_left _ _)

lemma alignSegment_some_bounds (candidates : List AlignCandidate)
    (fromTimeContext : Option (List Char)) (lastBestToNumber : Option ℚ) (backtrack : ℚ)
    (o : AlignOutcome) (h : alignSegment candidates fromTimeContext lastBestToNumber backtrack = some o) :
    o.toSegmentStart ≤ o.toSegmentEnd ∧ o.status = .proposed := by
  unfold alignSegment at h
  by_cases hnil : candidates = []
  · rw [if_pos hnil] at h; cases h
  rw [if_neg hnil] at h
  cases hs : (scoredOf fromTimeContext lastBestToNumber backtrack candidates).insertionSort
      (fun a b => b.2 ≤ a.2) with
  | nil => rw [hs] at h; cases h
  | cons top rest =>
    rw [hs] at h
    injection h with h2
    subst h2
    have htopmem : top ∈ scoredOf fromTimeContext lastBestToNumber backtrack candidates := by
      have : top ∈ (scoredOf fromTimeContext lastBestToNumber backtrack candidates).insertionSort
          (fun a b => b.2 ≤ a.2) := by rw [hs]; exact List.mem_cons_self top rest
      exact (List.perm_insertionSort _ _).mem_iff.mp this
    have hne : (((scoredOf fromTimeContext lastBestToNumber backtrack candidates).filter
        (fun c => top.2 - 2/100 ≤ c.2)).map (fun c => c.1.number)) ≠ [] := by
      simp only [ne_eq, List.map_eq_nil_iff]
      apply List.ne_nil_of_mem (a := top)
      refine List.mem_filter.mpr ⟨htopmem, ?_⟩
      simp only [decide_eq_true_eq]
      linarith
    exact ⟨qListMin_le_qListMax _ hne, rfl⟩

/-- C2 (amended): every mapping persisted by the event-voting matcher has
start at most end and a confidence clamped into the unit interval; every
mapping persisted by the summary/entities monotonic aligner has start at most
end, but its confidence is the top candidate's final score after the
time-context adjustment without clamping, so the claimed bound
confidence at most 1 fails there (counterexample below). -/
theorem claim_C2 :
    (∀ (cpe : List (List EventCandidate)) (lastBest : Option ℚ) (o : EventOutcome),
      matchSegmentByEvents cpe lastBest = some o →
        o.persistedStart ≤ o.persistedEnd ∧ 0 ≤ o.confidence ∧ o.confidence ≤ 1) ∧
    (∀ (candidates : List AlignCandidate) (fromTimeContext : Option (List Char))
        (lastBestToNumber : Option ℚ) (backtrack : ℚ) (o : AlignOutcome),
      alignSegment candidates fromTimeContext lastBestToNumber backtrack = some o →
        o.toSegmentStart ≤ o.toSegmentEnd) := by
  constructor
  · intro cpe lastBest o h
    obtain ⟨h1, h2, h3, _⟩ := matchEvents_some_bounds cpe lastBest o h
    exact ⟨h1, h2, h3⟩
  · intro candidates fromTc lastBest backtrack o h
    exact (alignSegment_some_bounds candidates fromTc lastBest backtrack o h).1

lemma alignSegment_eval_single (cands : List AlignCandidate) (fromTc : Option (List Char))
    (lb : Option ℚ) (bt : ℚ) (c : AlignCandidate) (q : ℚ)
    (hne : ¬cands = []) (hscored : scoredOf fromTc lb bt cands = [(c, q)]) :
    alignSegment cands fromTc lb bt = some ⟨c.number, c.number, q, .proposed⟩ := by
  unfold alignSegment
  rw [if_neg hne, hscored]
  have hsort : List.insertionSort (fun a b : AlignCandidate × ℚ => b.2 ≤ a.2) [(c, q)] = [(c, q)] := by
    simp [List.insertionSort, List.orderedInsert]
  rw [hsort]
  have hcond : (decide (q - 2/100 ≤ q)) = true := decide_eq_true (by linarith)
  simp [List.filter, hcond, qListMin, qListMax,
    decide_eq_true (show (0:ℚ) ≤ 2/100 by norm_num)]

lemma eval_align_exceed :
    alignSegment [alignCandExceed] (some presentCtx) none 3 = some ⟨7, 7, 51/50, .proposed⟩ := by
  have hscore : alignFinalScore (some presentCtx) none 3 alignCandExceed = 51/50 := by
    have hcond : normalizeTimeContext (some presentCtx) = normalizeTimeContext (some presentCtx) ∧
        normalizeTimeContext (some presentCtx) ≠ "unknown".toList := by decide
    simp only [alignFinalScore, applyTimeContextAdjustment]
    rw [if_pos (by exact hcond)]
    simp only [alignCandExceed, computeFinalScore, DEFAULT_WEIGHTS]
    norm_num
  have hscored : scoredOf (some presentCtx) none 3 [alignCandExceed] = [(alignCandExceed, 51/50)] := by
    simp [scoredOf, hscore]
  have := alignSegment_eval_single [alignCandExceed] (some presentCtx) none 3 alignCandExceed (51/50)
    (by simp) hscored
  simpa [alignCandExceed] using this

lemma matchEvents_eval_single (n s : ℚ) (hconf : ¬(max 0 (min 1 (s / 1)) < MIN_CONFIDENCE)) :
    matchSegmentByEvents [[(n, s)]] none =
      some ⟨n, n, max 0 (min 1 (s / 1)), .proposed, n, n⟩ := by
  have hv : votesOf [[(n, s)]] = [⟨n, s, 1⟩] := rfl
  have htop : topVoteOf [[(n, s)]] = some ⟨n, s, 1⟩ := rfl
  have havg : SegmentVote.avg ⟨n, s, 1⟩ = s / 1 := by simp [SegmentVote.avg]
  have hinr : inRangeOf [[(n, s)]] = [⟨n, s, 1⟩] := by
    simp only [inRangeOf, htop, hv, List.filter_cons, List.filter_nil]
    rw [if_pos (decide_eq_true (show SegmentVote.avg ⟨n, s, 1⟩ - CLUSTER_THRESHOLD ≤
      SegmentVote.avg ⟨n, s, 1⟩ by simp only [CLUSTER_THRESHOLD]; linarith))]
  have hcluster : clusterOf [[(n, s)]] = (n, n) := by
    simp only [clusterOf, htop, hinr, List.map, List.insertionSort, List.orderedInsert]
    simp only [clusterExpand, List.foldl]
    rw [if_pos (by constructor <;> simp)]
    simp
  have hcapped : cappedInRange (inRangeOf [[(n, s)]]) (clusterOf [[(n, s)]]) = [⟨n, s, 1⟩] := by
    rw [hcluster, hinr]
    unfold cappedInRange
    rw [if_neg (by intro hcon; norm_num [MAX_RANGE_WIDTH] at hcon)]
  unfold matchSegmentByEvents
  rw [if_neg (by simp : ¬([[(n, s)]] : List (List EventCandidate)) = [])]
  rw [htop]
  dsimp only
  rw [hcapped, hcluster, havg]
  rw [if_neg hconf]
  simp [qListMin, qListMax]

lemma eval_event_111 :
    matchSegmentByEvents [[((111 : ℚ), (9 : ℚ)/10)]] none =
      some ⟨111, 111, 9/10, .proposed, 111, 111⟩ := by
  have h := matchEvents_eval_single 111 (9/10) (by norm_num [MIN_CONFIDENCE])
  have hc : max (0:ℚ) (min 1 ((9/10) / 1)) = 9/10 := by norm_num
  rw [hc] at h
  exact h

/-- C2 counterexample: the summary/entities aligner, fed one candidate with
perfect channel similarities and a matching present time context, persists
confidence 1.02, outside the unit interval the claim asserts for every
persisted mapping. -/
theorem claim_C2_counterexample :
    alignSegment [alignCandExceed] (some presentCtx) none 3 = some ⟨7, 7, 51/50, .proposed⟩ ∧
      ¬((51 : ℚ)/50 ≤ 1) :=
  ⟨eval_align_exceed, by norm_num⟩

/-- C2 witness: the amended claim applied at two concrete runs, one per matcher. -/
theorem claim_C2_witness :
    ((111 : ℚ) ≤ 111 ∧ (0 : ℚ) ≤ 9/10 ∧ (9 : ℚ)/10 ≤ 1) ∧ ((7 : ℚ) ≤ 7) := by
  refine ⟨?_, ?_⟩
  · exact claim_C2.1 [[((111 : ℚ), (9 : ℚ)/10)]] none ⟨111, 111, 9/10, .proposed, 111, 111⟩
      eval_event_111
  · exact claim_C2.2 [alignCandExceed] (some presentCtx) none 3 ⟨7, 7, 51/50, .proposed⟩
      eval_align_exceed

lemma inRangeOf_single (n s : ℚ) : inRangeOf [[(n, s)]] = [⟨n, s, 1⟩] := by
  have htop : topVoteOf [[(n, s)]] = some ⟨n, s, 1⟩ := rfl
  have hv : votesOf [[(n, s)]] = [⟨n, s, 1⟩] := rfl
  simp only [inRangeOf, htop, hv, List.filter_cons, List.filter_nil]
  rw [if_pos (decide_eq_true (show SegmentVote.avg ⟨n, s, 1⟩ - CLUSTER_THRESHOLD ≤
    SegmentVote.avg ⟨n, s, 1⟩ by simp only [CLUSTER_THRESHOLD]; linarith))]

lemma clusterOf_single (n s : ℚ) : clusterOf [[(n, s)]] = (n, n) := by
  have htop : topVoteOf [[(n, s)]] = some ⟨n, s, 1⟩ := rfl
  simp only [clusterOf, htop, inRangeOf_single, List.map, List.insertionSort, List.orderedInsert]
  simp only [clusterExpand, List.foldl]
  rw [if_pos (by constructor <;> simp)]
  simp

lemma cappedInRange_single (n s : ℚ) :
    cappedInRange (inRangeOf [[(n, s)]]) (clusterOf [[(n, s)]]) = [⟨n, s, 1⟩] := by
  rw [clusterOf_single, inRangeOf_single]
  unfold cappedInRange
  rw [if_neg (by intro hcon; norm_num [MAX_RANGE_WIDTH] at hcon)]

lemma matchEvents_eval_single_cp (n s c : ℚ)
    (hnoreject : ¬(MAX_FORWARD_JUMP * 2 < n - c))
    (hconf : ¬(max 0 (min 1 (s / 1 - forwardJumpPenalty (n - c))) < MIN_CONFIDENCE)) :
    matchSegmentByEvents [[(n, s)]] (some c) =
      some ⟨n, n, max 0 (min 1 (s / 1 - forwardJumpPenalty (n - c))), .proposed, n, n⟩ := by
  have htop : topVoteOf [[(n, s)]] = some ⟨n, s, 1⟩ := rfl
  have havg : SegmentVote.avg ⟨n, s, 1⟩ = s / 1 := by simp [SegmentVote.avg]
  unfold matchSegmentByEvents
  rw [if_neg (by simp : ¬([[(n, s)]] : List (List EventCandidate)) = [])]
  rw [htop]
  dsimp only
  rw [cappedInRange_single, clusterOf_single, havg]
  rw [if_neg (by simp only [decide_eq_true_eq]; exact hnoreject)]
  rw [if_neg hconf]
  simp [qListMin, qListMax]

/-- C4 (amended): once the proposed cluster start exceeds the checkpoint by more
than MAX_FORWARD_JUMP, the subtracted penalty is (excess / 10) x 0.1 = excess / 100,
so checkpoint 50 with proposed start 95 (excess 15) costs 0.15 - not 0.015 - and
the concrete single-candidate run persists confidence 0.9 - 0.15 = 0.75. -/
theorem claim_C4 :
    (∀ fj : ℚ, MAX_FORWARD_JUMP < fj → forwardJumpPenalty fj = (fj - MAX_FORWARD_JUMP) / 100) ∧
    matchSegmentByEvents [[((95 : ℚ), (9 : ℚ)/10)]] (some 50) =
      some ⟨95, 95, 3/4, .proposed, 95, 95⟩ := by
  constructor
  · intro fj hfj
    rw [forwardJumpPenalty, if_pos hfj, JUMP_PENALTY_PER_10]
    ring
  · have hp : forwardJumpPenalty ((95 : ℚ) - 50) = 3/20 := by
      norm_num [forwardJumpPenalty, MAX_FORWARD_JUMP, JUMP_PENALTY_PER_10]
    have h := matchEvents_eval_single_cp 95 (9/10) 50
      (by norm_num [MAX_FORWARD_JUMP])
      (by rw [hp]; norm_num [MIN_CONFIDENCE])
    rw [hp] at h
    have hc : max (0:ℚ) (min 1 ((9:ℚ)/10 / 1 - 3/20)) = 3/4 := by norm_num
    rw [hc] at h
    exact h

/-- C4 counterexample: the penalty the code subtracts for checkpoint 50 and
proposed start 95 is 0.15, not the 0.015 the claim computes. -/
theorem claim_C4_counterexample :
    forwardJumpPenalty ((95 : ℚ) - 50) = 15/100 ∧ ¬((15 : ℚ)/100 = 15/1000) := by
  constructor
  · norm_num [forwardJumpPenalty, MAX_FORWARD_JUMP, JUMP_PENALTY_PER_10]
  · norm_num

/-- C4 witness: the general penalty formula applied at the claim's excess of 15. -/
theorem claim_C4_witness :
    MAX_FORWARD_JUMP < (45 : ℚ) ∧ forwardJumpPenalty 45 = ((45 : ℚ) - MAX_FORWARD_JUMP) / 100 :=
  ⟨by norm_num [MAX_FORWARD_JUMP], claim_C4.1 45 (by norm_num [MAX_FORWARD_JUMP])⟩

/-- C5: whenever the proposed cluster start exceeds the checkpoint by more than
twice MAX_FORWARD_JUMP, the voting matcher persists nothing for the unit and the
run leaves the checkpoint unchanged. -/
theorem claim_C5 (cpe : List (List EventCandidate)) (c : ℚ)
    (hjump : MAX_FORWARD_JUMP * 2 < (clusterOf cpe).1 - c) :
    matchSegmentByEvents cpe (some c) = none ∧
      matchEventsStep cpe (some c) = (none, some c) := by
  have hnone : matchSegmentByEvents cpe (some c) = none := by
    unfold matchSegmentByEvents
    by_cases hnil : cpe = []
    · rw [if_pos hnil]
    · rw [if_neg hnil]
      cases htop : topVoteOf cpe with
      | none => rfl
      | some top =>
        dsimp only
        rw [if_pos (decide_eq_true hjump)]
  refine ⟨hnone, ?_⟩
  unfold matchEventsStep
  rw [hnone]

/-- C5 witness: checkpoint 50 against a proposed start of 111 (jump 61 exceeds 60). -/
theorem claim_C5_witness :
    MAX_FORWARD_JUMP * 2 < (clusterOf [[((111 : ℚ), (9 : ℚ)/10)]]).1 - 50 ∧
      matchSegmentByEvents [[((111 : ℚ), (9 : ℚ)/10)]] (some 50) = none ∧
      matchEventsStep [[((111 : ℚ), (9 : ℚ)/10)]] (some 50) = (none, some 50) := by
  have hj : MAX_FORWARD_JUMP * 2 < (clusterOf [[((111 : ℚ), (9 : ℚ)/10)]]).1 - 50 := by
    rw [clusterOf_single]
    norm_num [MAX_FORWARD_JUMP]
  obtain ⟨h1, h2⟩ := claim_C5 [[((111 : ℚ), (9 : ℚ)/10)]] 50 hj
  exact ⟨hj, h1, h2⟩

/-- C3 (amended): whatever the vote distribution, the persisted range is the
min/max envelope of all tolerance-selected numbers (restricted to the capped
window when the one-pass cluster is too wide) - not the contiguous cluster's
bounds, which are only returned to the caller as the checkpoint anchor. -/
theorem claim_C3 (cpe : List (List EventCandidate)) (lastBest : Option ℚ) (o : EventOutcome)
    (h : matchSegmentByEvents cpe lastBest = some o) :
    o.persistedStart ∈ finalNumbersOf cpe ∧ o.persistedEnd ∈ finalNumbersOf cpe ∧
      (∀ n ∈ finalNumbersOf cpe, o.persistedStart ≤ n ∧ n ≤ o.persistedEnd) ∧
      o.retStart = (clusterOf cpe).1 ∧ o.retEnd = (clusterOf cpe).2 := by
  unfold matchSegmentByEvents at h
  by_cases hnil : cpe = []
  · rw [if_pos hnil] at h; cases h
  rw [if_neg hnil] at h
  cases htop : topVoteOf cpe with
  | none => rw [htop] at h; cases h
  | some top =>
    rw [htop] at h
    dsimp only at h
    split at h
    · cases h
    · split at h
      · cases h
      · injection h with h2
        subst h2
        have hne : finalNumbersOf cpe ≠ [] := by
          simp only [finalNumbersOf, ne_eq, List.map_eq_nil_iff]
          exact cappedInRange_ne_nil cpe top htop
        refine ⟨qListMin_mem _ hne, qListMax_mem _ hne, ?_, rfl, rfl⟩
        intro n hn
        exact ⟨qListMin_le _ n hn, le_qListMax _ n hn⟩

lemma votesOf_cpeWide :
    votesOf cpeWide = [⟨5, 9/10, 1⟩, ⟨9, 905/1000, 1⟩, ⟨20, 9/10, 1⟩] := by
  simp only [cpeWide, votesOf, List.foldl, addVote]
  norm_num

lemma sortVotes_cpeWide :
    sortVotesDesc (votesOf cpeWide) = [⟨9, 905/1000, 1⟩, ⟨5, 9/10, 1⟩, ⟨20, 9/10, 1⟩] := by
  rw [votesOf_cpeWide]
  simp only [sortVotesDesc, List.insertionSort, List.orderedInsert, SegmentVote.avg]
  norm_num

lemma topVoteOf_cpeWide : topVoteOf cpeWide = some ⟨9, 905/1000, 1⟩ := by
  simp only [topVoteOf, sortVotes_cpeWide, List.head?]

lemma inRangeOf_cpeWide :
    inRangeOf cpeWide = [⟨5, 9/10, 1⟩, ⟨9, 905/1000, 1⟩, ⟨20, 9/10, 1⟩] := by
  simp only [inRangeOf, topVoteOf_cpeWide, votesOf_cpeWide, List.filter_cons, List.filter_nil]
  norm_num [SegmentVote.avg, CLUSTER_THRESHOLD]

lemma clusterOf_cpeWide : clusterOf cpeWide = (9, 9) := by
  simp only [clusterOf, topVoteOf_cpeWide, inRangeOf_cpeWide, List.map,
    List.insertionSort, List.orderedInsert]
  norm_num [clusterExpand, List.foldl]

lemma cappedInRange_cpeWide :
    cappedInRange (inRangeOf cpeWide) (clusterOf cpeWide) = inRangeOf cpeWide := by
  rw [clusterOf_cpeWide]
  unfold cappedInRange
  rw [if_neg (by norm_num [MAX_RANGE_WIDTH])]

lemma eval_event_wide :
    matchSegmentByEvents cpeWide none = some ⟨5, 20, 181/200, .proposed, 9, 9⟩ := by
  unfold matchSegmentByEvents
  rw [if_neg (by simp [cpeWide])]
  rw [topVoteOf_cpeWide]
  dsimp only
  rw [cappedInRange_cpeWide, clusterOf_cpeWide, inRangeOf_cpeWide]
  rw [if_neg (by norm_num [SegmentVote.avg, MIN_CONFIDENCE])]
  rw [if_neg (by norm_num [SegmentVote.avg, MIN_CONFIDENCE] :
    ¬(max 0 (min 1 (SegmentVote.avg ⟨9, 905/1000, 1⟩)) < MIN_CONFIDENCE))]
  simp only [List.map, qListMin, qListMax, List.foldl, SegmentVote.avg]
  norm_num

lemma claimedRange_cpeWide : claimedVotingRange cpeWide = (9, 9) := by
  simp only [claimedVotingRange, topVoteOf_cpeWide, inRangeOf_cpeWide, List.map,
    List.insertionSort, List.orderedInsert]
  norm_num [gapClusters, gapClustersAux, List.find?, MAX_RANGE_WIDTH]

/-- C3 counterexample: with tolerance-selected numbers 5, 9 (best) and 20, the
code persists the envelope [5, 20], while the claim's contiguous gap-2 cluster
around the best number is [9, 9]. -/
theorem claim_C3_counterexample :
    matchSegmentByEvents cpeWide none = some ⟨5, 20, 181/200, .proposed, 9, 9⟩ ∧
      claimedVotingRange cpeWide = (9, 9) ∧
      ¬(((5 : ℚ), (20 : ℚ)) = ((9 : ℚ), (9 : ℚ))) := by
  refine ⟨eval_event_wide, claimedRange_cpeWide, ?_⟩
  norm_num [Prod.ext_iff]

/-- C3 witness: the amended claim applied at the wide vote distribution. -/
theorem claim_C3_witness :
    ((5 : ℚ) ∈ finalNumbersOf cpeWide) ∧ ((20 : ℚ) ∈ finalNumbersOf cpeWide) ∧
      ((9 : ℚ) = (clusterOf cpeWide).1) := by
  have h := claim_C3 cpeWide none ⟨5, 20, 181/200, .proposed, 9, 9⟩ eval_event_wide
  exact ⟨h.1, h.2.1, h.2.2.2.1⟩

lemma sortDesc_head_max {α : Type} (f : α → ℚ) (l : List α) (b : α) (bs : List α)
    (h : l.insertionSort (fun x y => f y ≤ f x) = b :: bs) :
    ∀ p ∈ l, f p ≤ f b := by
  haveI : IsTotal α (fun x y => f y ≤ f x) := ⟨fun x y => le_total (f y) (f x)⟩
  haveI : IsTrans α (fun x y => f y ≤ f x) := ⟨fun x y z hxy hyz => le_trans hyz hxy⟩
  have hsorted := List.sorted_insertionSort (fun x y => f y ≤ f x) l
  rw [h] at hsorted
  intro p hp
  have hp2 : p ∈ b :: bs := by
    rw [← h]
    exact ((List.perm_insertionSort _ l).symm.mem_iff).mp hp
  rcases List.mem_cons.mp hp2 with h3 | h3
  · subst h3; exact le_refl _
  · exact (List.sorted_cons.mp hsorted).1 p h3

lemma eval_pairCandidate_B1 :
    pairCandidate ⟨1, 100, 110, 9/10⟩ ⟨10, 105, 108, 8/10⟩ =
      some ⟨⟨10, 105, 108, 8/10⟩, 4, 1, 18/25⟩ := by
  norm_num [pairCandidate, overlapLength, overlapRatio, clamp, min_def, max_def]

lemma eval_pairCandidate_B2 :
    pairCandidate ⟨1, 100, 110, 9/10⟩ ⟨11, 200, 205, 95/100⟩ = none := by
  norm_num [pairCandidate, overlapLength, min_def, max_def]

lemma eval_overlappingOf_pair :
    overlappingOf ⟨1, 100, 110, 9/10⟩ [⟨10, 105, 108, 8/10⟩, ⟨11, 200, 205, 95/100⟩] =
      [⟨⟨10, 105, 108, 8/10⟩, 4, 1, 18/25⟩] := by
  simp [overlappingOf, eval_pairCandidate_B1, eval_pairCandidate_B2]

lemma eval_derive_pair :
    deriveAnimeManhwaMapping ⟨1, 100, 110, 9/10⟩
        [⟨10, 105, 108, 8/10⟩, ⟨11, 200, 205, 95/100⟩] =
      some ⟨10, 10, 18/25, 4, 1, 9/10, 8/10⟩ := by
  unfold deriveAnimeManhwaMapping
  rw [eval_overlappingOf_pair]
  simp only [List.insertionSort, List.orderedInsert]
  norm_num [List.filter, List.map, spanLoop]

/-- C7: a pair contributes to the derivation exactly when the pivot ranges
overlap, the derived confidence of a contributing pair is
confidence(a) x confidence(b) x (overlap / min(lenA, lenB)) clamped to [0,1],
and the worked example A=[100,110] 0.9 against B1=[105,108] 0.8 and
B2=[200,205] 0.95 keeps only B1 with derived confidence 0.72. -/
theorem claim_C7 :
    (∀ a m : PivotMapping, (pairCandidate a m).isSome ↔
        0 < overlapLength a.to_segment_start a.to_segment_end
          m.to_segment_start m.to_segment_end) ∧
    (∀ (a m : PivotMapping) (p : OverlapCand), pairCandidate a m = some p →
        p.derivedConf = clamp (a.confidence * m.confidence *
          (overlapLength a.to_segment_start a.to_segment_end
              m.to_segment_start m.to_segment_end /
            min (a.to_segment_end - a.to_segment_start + 1)
              (m.to_segment_end - m.to_segment_start + 1))) 0 1) ∧
    deriveAnimeManhwaMapping ⟨1, 100, 110, 9/10⟩
        [⟨10, 105, 108, 8/10⟩, ⟨11, 200, 205, 95/100⟩] =
      some ⟨10, 10, 18/25, 4, 1, 9/10, 8/10⟩ := by
  refine ⟨?_, ?_, eval_derive_pair⟩
  · intro a m
    unfold pairCandidate
    by_cases hpos : 0 < overlapLength a.to_segment_start a.to_segment_end
        m.to_segment_start m.to_segment_end
    · rw [if_pos hpos]; simp [hpos]
    · rw [if_neg hpos]; simp [hpos]
  · intro a m p hp
    unfold pairCandidate at hp
    by_cases hpos : 0 < overlapLength a.to_segment_start a.to_segment_end
        m.to_segment_start m.to_segment_end
    · rw [if_pos hpos] at hp
      injection hp with h2
      subst h2
      simp only [overlapRatio]
      rw [if_neg (ne_of_gt hpos)]
    · rw [if_neg hpos] at hp; cases hp

/-- C7 witness: both universal parts applied at the worked pair (A, B1). -/
theorem claim_C7_witness :
    (0 : ℚ) < overlapLength 100 110 105 108 ∧
    (⟨⟨10, 105, 108, 8/10⟩, 4, 1, 18/25⟩ : OverlapCand).derivedConf =
      clamp ((9 : ℚ)/10 * (8/10) *
        (overlapLength 100 110 105 108 / min ((110 : ℚ) - 100 + 1) ((108 : ℚ) - 105 + 1))) 0 1 := by
  refine ⟨by norm_num [overlapLength, min_def, max_def], ?_⟩
  exact claim_C7.2.1 ⟨1, 100, 110, 9/10⟩ ⟨10, 105, 108, 8/10⟩
    ⟨⟨10, 105, 108, 8/10⟩, 4, 1, 18/25⟩ eval_pairCandidate_B1

lemma spanLoop_eq_chainPrefixEnd (l : List ℚ) : ∀ s, spanLoop s l = chainPrefixEnd s l := by
  induction l with
  | nil => intro s; rfl
  | cons x xs ih =>
    intro s
    unfold spanLoop chainPrefixEnd
    by_cases h : x - s ≤ 2
    · rw [if_pos h, if_pos (by linarith), ih]
    · rw [if_neg h, if_neg (by intro hc; exact h (by linarith))]

/-- C8 (amended): the kept pairs are exactly those within 0.05 of the best
derived confidence (the best being maximal over all overlapping pairs), and the
anime-to-manhwa derivation persists the gap-2 contiguous span of the kept
ordinals from the lowest upward; the legacy pivot derivation instead persists
the plain [min,max] envelope of the kept ordinals without gap merging
(counterexample below). -/
theorem claim_C8 :
    (∀ (a : PivotMapping) (ms : List PivotMapping) (best : OverlapCand)
        (rest : List OverlapCand),
      (overlappingOf a ms).insertionSort (fun x y => y.derivedConf ≤ x.derivedConf) =
          best :: rest →
        (∀ p ∈ overlappingOf a ms, p.derivedConf ≤ best.derivedConf) ∧
        (∀ p, p ∈ (best :: rest).filter (fun o => best.derivedConf - 5/100 ≤ o.derivedConf) ↔
          (p ∈ overlappingOf a ms ∧ best.derivedConf - 5/100 ≤ p.derivedConf))) ∧
    (∀ (a : PivotMapping) (ms : List PivotMapping) (d : DerivedMapping),
      deriveAnimeManhwaMapping a ms = some d →
        ∃ nrest : List ℚ, keptNumbersOf a ms = d.manhwa_start :: nrest ∧
          d.manhwa_end = chainPrefixEnd d.manhwa_start nrest) := by
  constructor
  · intro a ms best rest hsort
    constructor
    · exact sortDesc_head_max (fun o => o.derivedConf) (overlappingOf a ms) best rest hsort
    · intro p
      constructor
      · intro hp
        obtain ⟨hp1, hp2⟩ := List.mem_filter.mp hp
        refine ⟨?_, by simpa using hp2⟩
        rw [← hsort] at hp1
        exact (List.perm_insertionSort _ _).mem_iff.mp hp1
      · intro ⟨hp1, hp2⟩
        refine List.mem_filter.mpr ⟨?_, by simpa using hp2⟩
        rw [← hsort]
        exact (List.perm_insertionSort _ _).mem_iff.mpr hp1
  · intro a ms d h
    unfold deriveAnimeManhwaMapping at h
    cases hsort : (overlappingOf a ms).insertionSort (fun x y => y.derivedConf ≤ x.derivedConf) with
    | nil => rw [hsort] at h; cases h
    | cons best rest =>
      rw [hsort] at h
      dsimp only at h
      cases hnums : (((best :: rest).filter
          (fun o => best.derivedConf - 5/100 ≤ o.derivedConf)).map
          (fun t => t.mapping.from_segment_number)).insertionSort (· ≤ ·) with
      | nil => rw [hnums] at h; cases h
      | cons n0 nrest =>
        rw [hnums] at h
        injection h with h2
        subst h2
        refine ⟨nrest, ?_, ?_⟩
        · unfold keptNumbersOf
          rw [hsort]
          dsimp only
          rw [hnums]
        · exact spanLoop_eq_chainPrefixEnd nrest n0

lemma eval_legacyPair_10 :
    legacyPairCandidate ⟨1, 100, 110, 9/10⟩ ⟨10, 100, 110, 8/10⟩ =
      some ⟨⟨10, 100, 110, 8/10⟩, 11, 1, 18/25⟩ := by
  norm_num [legacyPairCandidate, overlapLength, min_def, max_def]

lemma eval_legacyPair_20 :
    legacyPairCandidate ⟨1, 100, 110, 9/10⟩ ⟨20, 100, 110, 8/10⟩ =
      some ⟨⟨20, 100, 110, 8/10⟩, 11, 1, 18/25⟩ := by
  norm_num [legacyPairCandidate, overlapLength, min_def, max_def]

lemma eval_legacy_gap :
    deriveMapping ⟨1, 100, 110, 9/10⟩ [⟨10, 100, 110, 8/10⟩, ⟨20, 100, 110, 8/10⟩] =
      some ⟨10, 20, 18/25, .proposed⟩ := by
  unfold deriveMapping
  rw [show ([⟨10, 100, 110, 8/10⟩, ⟨20, 100, 110, 8/10⟩] : List ManhwaMapping).filterMap
      (legacyPairCandidate ⟨1, 100, 110, 9/10⟩) =
      [⟨⟨10, 100, 110, 8/10⟩, 11, 1, 18/25⟩, ⟨⟨20, 100, 110, 8/10⟩, 11, 1, 18/25⟩] from by
    simp [eval_legacyPair_10, eval_legacyPair_20]]
  simp only [List.insertionSort, List.orderedInsert]
  norm_num [List.filter, List.map, qListMin, qListMax, min_def, max_def]

/-- C8 counterexample: with kept ordinals 10 and 20 (both within 0.05 of the
best), the legacy pivot derivation persists [10, 20], while the claimed gap-2
contiguous construction from the lowest ordinal stops at 10. -/
theorem claim_C8_counterexample :
    deriveMapping ⟨1, 100, 110, 9/10⟩ [⟨10, 100, 110, 8/10⟩, ⟨20, 100, 110, 8/10⟩] =
      some ⟨10, 20, 18/25, .proposed⟩ ∧
    chainPrefixEnd 10 [20] = 10 ∧ ¬((20 : ℚ) = 10) := by
  refine ⟨eval_legacy_gap, ?_, by norm_num⟩
  norm_num [chainPrefixEnd]

/-- C8 witness: both universal parts applied at the worked derivation input. -/
theorem claim_C8_witness :
    ((⟨⟨10, 105, 108, 8/10⟩, 4, 1, 18/25⟩ : OverlapCand).derivedConf ≤
      (⟨⟨10, 105, 108, 8/10⟩, 4, 1, 18/25⟩ : OverlapCand).derivedConf) ∧
    (∃ nrest : List ℚ,
      keptNumbersOf ⟨1, 100, 110, 9/10⟩ [⟨10, 105, 108, 8/10⟩, ⟨11, 200, 205, 95/100⟩] =
        10 :: nrest ∧ (10 : ℚ) = chainPrefixEnd 10 nrest) := by
  have hsort : (overlappingOf ⟨1, 100, 110, 9/10⟩
      [⟨10, 105, 108, 8/10⟩, ⟨11, 200, 205, 95/100⟩]).insertionSort
      (fun x y => y.derivedConf ≤ x.derivedConf) =
      (⟨⟨10, 105, 108, 8/10⟩, 4, 1, 18/25⟩ : OverlapCand) :: [] := by
    rw [eval_overlappingOf_pair]
    simp [List.insertionSort, List.orderedInsert]
  constructor
  · exact (claim_C8.1 ⟨1, 100, 110, 9/10⟩ [⟨10, 105, 108, 8/10⟩, ⟨11, 200, 205, 95/100⟩]
      ⟨⟨10, 105, 108, 8/10⟩, 4, 1, 18/25⟩ [] hsort).1
      ⟨⟨10, 105, 108, 8/10⟩, 4, 1, 18/25⟩
      (by rw [eval_overlappingOf_pair]; exact List.mem_singleton.mpr rfl)
  · exact claim_C8.2 ⟨1, 100, 110, 9/10⟩ [⟨10, 105, 108, 8/10⟩, ⟨11, 200, 205, 95/100⟩]
      ⟨10, 10, 18/25, 4, 1, 9/10, 8/10⟩ eval_derive_pair

/-- C1 (amended): the shared determineStatus helper and every matcher
(event voting, summary/entities alignment, the legacy pivot derivation)
persist status proposed unconditionally, but the anime-to-manhwa derivation
run writes status approved exactly when the derived confidence reaches the
configured minimum confidence (counterexample below). -/
theorem claim_C1 :
    (∀ c w mc mw : ℚ, determineStatus c w mc mw = .proposed) ∧
    (∀ (cpe : List (List EventCandidate)) (lastBest : Option ℚ) (o : EventOutcome),
      matchSegmentByEvents cpe lastBest = some o → o.status = .proposed) ∧
    (∀ (cands : List AlignCandidate) (ftc : Option (List Char)) (lb : Option ℚ) (bt : ℚ)
        (o : AlignOutcome), alignSegment cands ftc lb bt = some o → o.status = .proposed) ∧
    (∀ (a : PivotMapping) (ms : List ManhwaMapping) (o : LegacyDerived),
      deriveMapping a ms = some o → o.status = .proposed) ∧
    (∀ (a : PivotMapping) (ms : List PivotMapping) (mc : ℚ) (d : DerivedMapping) (st : MStatus),
      runDeriveStep a ms mc = some (d, st) → (st = .approved ↔ mc ≤ d.derived_confidence)) := by
  refine ⟨fun _ _ _ _ => rfl, ?_, ?_, ?_, ?_⟩
  · intro cpe lastBest o h
    exact (matchEvents_some_bounds cpe lastBest o h).2.2.2
  · intro cands ftc lb bt o h
    exact (alignSegment_some_bounds cands ftc lb bt o h).2
  · intro a ms o h
    unfold deriveMapping at h
    cases hsort : (ms.filterMap (legacyPairCandidate a)).insertionSort
        (fun x y => y.derivedConf ≤ x.derivedConf) with
    | nil => rw [hsort] at h; cases h
    | cons best rest =>
      rw [hsort] at h
      injection h with h2
      subst h2
      rfl
  · intro a ms mc d st h
    unfold runDeriveStep at h
    cases hD : deriveAnimeManhwaMapping a ms with
    | none => rw [hD] at h; cases h
    | some d2 =>
      rw [hD] at h
      simp only [Option.map_some'] at h
      injection h with h2
      obtain ⟨h3, h4⟩ := Prod.mk.injEq .. |>.mp h2
      rw [← h3, ← h4]
      unfold deriveRunStatus
      by_cases hlt : d2.derived_confidence < mc
      · rw [if_pos hlt]
        constructor
        · intro hcon; cases hcon
        · intro hle; exact absurd hlt (not_lt.mpr hle)
      · rw [if_neg hlt]
        exact ⟨fun _ => not_lt.mp hlt, fun _ => rfl⟩

lemma eval_runDeriveStep :
    runDeriveStep ⟨1, 100, 110, 9/10⟩ [⟨10, 105, 108, 8/10⟩, ⟨11, 200, 205, 95/100⟩] (11/20) =
      some (⟨10, 10, 18/25, 4, 1, 9/10, 8/10⟩, .approved) := by
  unfold runDeriveStep
  rw [eval_derive_pair]
  simp only [Option.map_some']
  unfold deriveRunStatus
  rw [if_neg (by norm_num)]

/-- C1 counterexample: the anime-to-manhwa derivation run, with minimum
confidence 0.55 and derived confidence 0.72, persists the mapping with status
approved, so the algorithms do not only ever write proposed. -/
theorem claim_C1_counterexample :
    runDeriveStep ⟨1, 100, 110, 9/10⟩ [⟨10, 105, 108, 8/10⟩, ⟨11, 200, 205, 95/100⟩] (11/20) =
      some (⟨10, 10, 18/25, 4, 1, 9/10, 8/10⟩, .approved) ∧
    MStatus.approved ≠ MStatus.proposed :=
  ⟨eval_runDeriveStep, by decide⟩

/-- C1 witness: the amended claim applied at a concrete voting run and at the
concrete derivation run. -/
theorem claim_C1_witness :
    ((⟨111, 111, 9/10, .proposed, 111, 111⟩ : EventOutcome).status = .proposed) ∧
    (MStatus.approved = .approved ↔ (11 : ℚ)/20 ≤
      (⟨10, 10, 18/25, 4, 1, 9/10, 8/10⟩ : DerivedMapping).derived_confidence) := by
  constructor
  · exact claim_C1.2.1 [[((111 : ℚ), (9 : ℚ)/10)]] none ⟨111, 111, 9/10, .proposed, 111, 111⟩
      eval_event_111
  · exact claim_C1.2.2.2.2 ⟨1, 100, 110, 9/10⟩ [⟨10, 105, 108, 8/10⟩, ⟨11, 200, 205, 95/100⟩]
      (11/20) ⟨10, 10, 18/25, 4, 1, 9/10, 8/10⟩ .approved eval_runDeriveStep

/-- C6: with checkpoint target-end 100 and proposed start 90 (backward jump 10
over the backtrack limit 3), confidence 0.6 fires the violation path giving
confidence 0.48 and status proposed, while confidence 0.85 (at or above the
0.80 exception) does not fire and the confidence is unchanged. -/
theorem claim_C6 (e mc : ℚ) :
    monotonicGuard 100 90 e (6/10) mc = (.proposed, 12/25) ∧
    monotonicGuard 100 90 e (85/100) mc = (.proposed, 85/100) := by
  constructor
  · unfold monotonicGuard
    rw [if_pos (by norm_num)]
    norm_num [clamp, min_def, max_def]
  · unfold monotonicGuard
    rw [if_neg (by norm_num)]
    rfl

lemma okTrace_runMatchEvents (oracle : ℚ → Option (ℚ × ℚ) → List (List EventCandidate))
    (ws bt : ℚ) (segs : List ℚ) : ∀ (cp : Option ℚ) (ps : List ℚ),
    okTrace (runMatchEvents oracle ws bt segs cp) ps = true := by
  induction segs with
  | nil => intro cp ps; rfl
  | cons seg rest ih =>
    intro cp ps
    unfold runMatchEvents
    cases hm : matchSegmentByEvents
        (oracle seg (cp.map (fun c => (c - bt, c + ws)))) cp with
    | some o =>
      simp only [okTrace]
      rw [if_pos (List.mem_cons_self seg ps)]
      exact ih _ _
    | none => exact ih _ _

/-- C9 (amended): in the voting aligner run, the checkpoint advance for a unit
always happens after that unit's mapping is upserted - for every oracle,
window, and segment list; the greedy aligner violates this by advancing
lastMatchedChapter during the scan and persisting afterwards (counterexample). -/
theorem claim_C9 (oracle : ℚ → Option (ℚ × ℚ) → List (List EventCandidate))
    (ws bt : ℚ) (segs : List ℚ) (cp : Option ℚ) :
    okTrace (runMatchEvents oracle ws bt segs cp) [] = true :=
  okTrace_runMatchEvents oracle ws bt segs cp []

lemma eval_greedy_det :
    determineChapterRange 1 [⟨5, 9/10⟩] 0 = some ⟨1, 5, 5, 9/10, 1⟩ := by
  have hd : (([⟨5, 9/10⟩] : List EventMatch).map (fun m => m.to_chapter)).dedup = [5] := by
    simp
  have hbc : findBestCluster [5] [⟨5, 9/10⟩] = (5, 5) := rfl
  simp only [determineChapterRange, hd, List.insertionSort, List.orderedInsert, hbc]
  rw [if_neg (by norm_num)]
  norm_num [List.filter, List.sum]

lemma eval_greedy_loop :
    runMatchEventsGreedyLoop (fun _ _ _ => [⟨5, 9/10⟩]) [1] 0 [] =
      ([⟨1, 5, 5, 9/10, 1⟩], [.advance 1]) := by
  unfold runMatchEventsGreedyLoop
  rw [if_neg (by simp)]
  rw [if_neg (by simp)]
  rw [eval_greedy_det]
  rfl

/-- C9 counterexample: a one-episode greedy run advances lastMatchedChapter
during the scan and persists the mapping only in the later save phase, so its
trace has the advance before the persist. -/
theorem claim_C9_counterexample :
    okTrace (runMatchEventsGreedy (fun _ _ _ => [⟨5, 9/10⟩]) [1]) [] = false := by
  unfold runMatchEventsGreedy
  rw [eval_greedy_loop]
  rfl
